import Mathlib

/-!
Verification development for the fin-tilt portfolio rebalancing tool.

The definitions below are a shallow embedding of `main.go`:

* Go `int` is modeled as `ℤ`; 64-bit overflow is not modeled (every amount
  appearing in a theorem below is far below 2^63).
* Go `float64` values are modeled exactly: finite values as `ℚ`, and the IEEE
  special values through the dedicated `GoFloat` type.  Floating-point rounding
  error is not modeled; every concrete input used in a theorem below was chosen
  so that the exact rational computation and the float64 computation agree on
  the stated facts.
* The Go literal `1e-9` denotes the float64 nearest to 10⁻⁹; it is modeled as
  the exact rational 10⁻⁹ (the difference is about 6·10⁻²⁶, and every
  comparison against it in a theorem below has a margin of at least 10⁻¹⁰).
* File I/O, CSV tokenizing, YAML decoding, flag parsing and ANSI coloring are
  adapter concerns and are not modeled; the embedding starts from the already
  structured data those adapters produce (config entries, CSV field strings).
-/

/-- The `Stock` struct of main.go: one entry of the YAML config.
`TargetPercentage` is a `float64` in Go, always finite, modeled as `ℚ`. -/
structure Stock where
  symbol : String
  targetPercentage : ℚ
  description : String
deriving DecidableEq

/-- The `Config` struct of main.go. -/
structure Config where
  stocks : List Stock
deriving DecidableEq

/-- The percentage-sum loop of `parseConfig` (main.go:233-236):
`totalPercentage := 0.0; for _, stock := range config.Stocks { totalPercentage += stock.TargetPercentage }`. -/
def totalPercentage (stocks : List Stock) : ℚ :=
  stocks.foldl (fun acc stock => acc + stock.targetPercentage) 0

/-- The validation performed by `parseConfig` (main.go:233-241) after YAML
decoding: `if math.Abs(totalPercentage-100.0) > 1e-9 { return nil, errors.New(...) }`.
This is the only validation rule in the code. -/
def validateConfig (stocks : List Stock) : Except String Config :=
  if |totalPercentage stocks - 100| > 1 / 1000000000 then
    .error "target percentages do not add up to 100"
  else
    .ok ⟨stocks⟩

/-- The spec's data model stores a target fraction in `[0,1]` where the code
stores a percentage in `[0,100]`.  Modelled from the spec: the target fraction
of an entry, i.e. its target percentage divided by 100. -/
def specTargetFraction (stock : Stock) : ℚ :=
  stock.targetPercentage / 100

/-- Decimal digit test, as accepted by `strconv.Atoi`. -/
def isDigitChar (c : Char) : Bool :=
  '0' ≤ c && c ≤ '9'

/-- Value of a list of decimal digits, most significant first. -/
def digitsVal (l : List Char) : ℕ :=
  l.foldl (fun acc c => acc * 10 + (c.toNat - 48)) 0

/-- Go `strconv.Atoi`: an optional single sign followed by at least one decimal
digit; anything else is a syntax error.  (Go also errors on 64-bit overflow,
which is not modeled; no theorem below involves amounts near 2^63.) -/
def goAtoi (l : List Char) : Except String ℤ :=
  match l with
  | [] => .error "invalid syntax"
  | '-' :: rest =>
      if !rest.isEmpty && rest.all isDigitChar then .ok (-(digitsVal rest : ℤ))
      else .error "invalid syntax"
  | '+' :: rest =>
      if !rest.isEmpty && rest.all isDigitChar then .ok (digitsVal rest : ℤ)
      else .error "invalid syntax"
  | l₀ =>
      if l₀.all isDigitChar then .ok (digitsVal l₀ : ℤ)
      else .error "invalid syntax"

/-- Go `strings.TrimPrefix(amount, "$")`: drop one leading dollar sign if present. -/
def trimDollar : List Char → List Char
  | '$' :: rest => rest
  | l => l

/-- `amountToInt` (main.go:244-252): strip an optional leading `$`, delete every
`.` (that is what `strings.ReplaceAll(amount, ".", "")` does), then `strconv.Atoi`. -/
def amountToInt (amount : String) : Except String ℤ :=
  goAtoi ((trimDollar amount.data).filter (fun c => c != '.'))

/-- One comma insertion of `formatAmount` (main.go:264): the Go string slicing
`dollars[:i] + "," + dollars[i:]`. -/
def insertCommaAt (l : List Char) (i : ℕ) : List Char :=
  l.take i ++ ',' :: l.drop i

/-- The comma-insertion loop of `formatAmount` (main.go:263-265): `i` starts at
`len(dollars) - 3` and decreases by 3 while it stays positive (Go's negative
intermediate values of `i` are exactly the values clamped to 0 by `ℕ`
subtraction: in both cases the loop stops).  The first argument is fuel giving
structural termination; `i` strictly decreases, so fuel `i` always suffices. -/
def commaLoopAux : ℕ → List Char → ℕ → List Char
  | 0, l, _ => l
  | fuel + 1, l, i => if i = 0 then l else commaLoopAux fuel (insertCommaAt l i) (i - 3)

/-- The comma-insertion loop entered with its Go initial index. -/
def commaLoop (l : List Char) (i : ℕ) : List Char :=
  commaLoopAux i l i

/-- `formatAmount` (main.go:254-272).  `Int.repr` produces the same decimal
string as Go's `strconv.Itoa`. -/
def formatAmount (amount : ℤ) (includeCommas : Bool) : String :=
  let s0 := (Int.repr amount).data
  let s1 := if s0.length < 3 then List.replicate (3 - s0.length) '0' ++ s0 else s0
  let dollars := s1.take (s1.length - 2)
  let cents := s1.drop (s1.length - 2)
  let dollars2 := if includeCommas then commaLoop dollars (dollars.length - 3) else dollars
  let s2 := dollars2 ++ '.' :: cents
  if amount < 0 then ⟨s2.take 1 ++ '$' :: s2.drop 1⟩ else ⟨'$' :: s2⟩

/-- A Go `float64` value, modeled exactly: finite values carry an exact
rational (float64 rounding error is not modeled), plus the IEEE special values
produced by division by zero.  Signed zero is not distinguished; the only zero
divisor arising in the code is `float64(total)` with `total == 0`, which is
`+0` in Go, and the definitions below fix that sign convention. -/
inductive GoFloat where
  | finite (q : ℚ)
  | posInf
  | negInf
  | nan
deriving DecidableEq

/-- IEEE division on the exact model.  `finite / ±inf` would be a signed zero;
it is modeled as `0` (never reached by the embedded code). -/
def GoFloat.div : GoFloat → GoFloat → GoFloat
  | .nan, _ => .nan
  | _, .nan => .nan
  | .posInf, .posInf => .nan
  | .posInf, .negInf => .nan
  | .negInf, .posInf => .nan
  | .negInf, .negInf => .nan
  | .posInf, .finite b => if 0 ≤ b then .posInf else .negInf
  | .negInf, .finite b => if 0 ≤ b then .negInf else .posInf
  | .finite _, .posInf => .finite 0
  | .finite _, .negInf => .finite 0
  | .finite a, .finite b =>
      if b = 0 then (if a = 0 then .nan else if 0 < a then .posInf else .negInf)
      else .finite (a / b)

/-- IEEE multiplication on the exact model. -/
def GoFloat.mul : GoFloat → GoFloat → GoFloat
  | .nan, _ => .nan
  | _, .nan => .nan
  | .posInf, .posInf => .posInf
  | .posInf, .negInf => .negInf
  | .negInf, .posInf => .negInf
  | .negInf, .negInf => .posInf
  | .posInf, .finite b => if b = 0 then .nan else if 0 < b then .posInf else .negInf
  | .finite a, .posInf => if a = 0 then .nan else if 0 < a then .posInf else .negInf
  | .negInf, .finite b => if b = 0 then .nan else if 0 < b then .negInf else .posInf
  | .finite a, .negInf => if a = 0 then .nan else if 0 < a then .negInf else .posInf
  | .finite a, .finite b => .finite (a * b)

/-- IEEE subtraction on the exact model. -/
def GoFloat.sub : GoFloat → GoFloat → GoFloat
  | .nan, _ => .nan
  | _, .nan => .nan
  | .posInf, .posInf => .nan
  | .posInf, .negInf => .posInf
  | .posInf, .finite _ => .posInf
  | .negInf, .negInf => .nan
  | .negInf, .posInf => .negInf
  | .negInf, .finite _ => .negInf
  | .finite _, .posInf => .negInf
  | .finite _, .negInf => .posInf
  | .finite a, .finite b => .finite (a - b)

/-- IEEE negation on the exact model. -/
def GoFloat.neg : GoFloat → GoFloat
  | .finite q => .finite (-q)
  | .posInf => .negInf
  | .negInf => .posInf
  | .nan => .nan

/-- Rounding half away from zero, the documented behavior of Go `math.Round`,
on the exact rational model. -/
def roundHalfAway (q : ℚ) : ℤ :=
  if 0 ≤ q then ⌊q + 1/2⌋ else -⌊-q + 1/2⌋

/-- Go `math.Round` on the model: `±Inf` and `NaN` are returned unchanged. -/
def GoFloat.round : GoFloat → GoFloat
  | .finite q => .finite ((roundHalfAway q : ℤ) : ℚ)
  | x => x

/-- Go conversion `int(f)`: truncation toward zero for finite values.  For the
IEEE special values the conversion is implementation-defined in Go; the model
returns 0 there, and no theorem below depends on that branch. -/
def goTruncToInt : GoFloat → ℤ
  | .finite q => if 0 ≤ q then ⌊q⌋ else -⌊-q⌋
  | _ => 0

/-- The `SymbolData` struct of main.go (the fields of one drift entry). -/
structure SymbolData where
  amount : ℤ
  amountNeeded : ℤ
  currentPercentage : GoFloat
  targetPercentage : ℚ
  drift : GoFloat
deriving DecidableEq

/-- The per-stock computation of `rebalance` (main.go:146-156):
`currentPercentage := (float64(currentAmount) / float64(total)) * 100`,
`drift := currentPercentage - stock.TargetPercentage`,
`AmountNeeded: int(math.Round(float64(total) * (-drift / 100)))`. -/
def mkSymbolData (total currentAmount : ℤ) (stock : Stock) : SymbolData :=
  let currentPercentage :=
    ((GoFloat.finite (currentAmount : ℚ)).div (GoFloat.finite (total : ℚ))).mul (GoFloat.finite 100)
  let drift := currentPercentage.sub (GoFloat.finite stock.targetPercentage)
  { amount := currentAmount
    amountNeeded :=
      goTruncToInt (GoFloat.round ((GoFloat.finite (total : ℚ)).mul (drift.neg.div (GoFloat.finite 100))))
    currentPercentage := currentPercentage
    targetPercentage := stock.targetPercentage
    drift := drift }

/-- One already-tokenized holdings CSV row: the `Symbol` field and the raw
`Current Value` field (still a string; `rebalance` parses it with `amountToInt`). -/
structure HoldingRecord where
  symbol : String
  amountStr : String
deriving DecidableEq

/-- The `symbolsToRebalance` membership test of `rebalance` (main.go:98-101):
a symbol is tracked exactly when some config entry carries it.  The code has no
alias concept, so this is the whole of symbol resolution. -/
def symbolTracked (cfg : Config) (symbol : String) : Bool :=
  cfg.stocks.any (fun stock => stock.symbol == symbol)

/-- The running state of the aggregation loop of `rebalance` (main.go:103-104):
`total` and the map `amountsBySymbol` (a Go map reads as 0 at absent keys,
modeled as a total function defaulting to 0). -/
structure AggState where
  total : ℤ
  bySymbol : String → ℤ

/-- One iteration of the aggregation loop of `rebalance` (main.go:116-143):
untracked symbols are skipped, otherwise the amount field is parsed and added
to `total` and to the symbol's entry of `amountsBySymbol`.  (The code adds
before testing the parse error, but on error it returns immediately and the
state is discarded, so parse failure yields exactly the error.) -/
def aggregateStep (cfg : Config) (st : AggState) (r : HoldingRecord) : Except String AggState :=
  if !symbolTracked cfg r.symbol then
    .ok st
  else
    match amountToInt r.amountStr with
    | .ok amount =>
        .ok ⟨st.total + amount,
             fun s => if s = r.symbol then st.bySymbol s + amount else st.bySymbol s⟩
    | .error e => .error e

/-- The `for` loop of `rebalance` over the CSV rows (main.go:116-143), as a
structural recursion: apply `aggregateStep` row by row, stopping at the first
parse error. -/
def aggregateLoop (cfg : Config) : AggState → List HoldingRecord → Except String AggState
  | st, [] => .ok st
  | st, r :: rest =>
      match aggregateStep cfg st r with
      | .ok st' => aggregateLoop cfg st' rest
      | .error e => .error e

/-- The whole aggregation loop of `rebalance`, starting from
`total := toDeposit` (main.go:104, the deposit is already in cents there). -/
def aggregateRecords (cfg : Config) (records : List HoldingRecord) (toDeposit : ℤ) :
    Except String AggState :=
  aggregateLoop cfg ⟨toDeposit, fun _ => 0⟩ records

/-- The rebalance computation of main.go:104-158: aggregate the holdings, then
produce one `SymbolData` per config entry, in config order.  The pair carries
the final total (main.go:181-183 prints it) and the drift entries. -/
def rebalanceCalc (cfg : Config) (records : List HoldingRecord) (toDeposit : ℤ) :
    Except String (ℤ × List SymbolData) :=
  match aggregateRecords cfg records toDeposit with
  | .error e => .error e
  | .ok st =>
      .ok (st.total, cfg.stocks.map (fun stock => mkSymbolData st.total (st.bySymbol stock.symbol) stock))

/-- The per-stock computation of `deposit` (main.go:213-217):
`amountToDeposit := int(math.Floor(float64(amount) * (stock.TargetPercentage / 100)))`,
with `amount` already converted to cents. -/
def depositShares (cfg : Config) (amount : ℤ) : List (String × ℤ) :=
  cfg.stocks.map (fun stock => (stock.symbol, ⌊(amount : ℚ) * (stock.targetPercentage / 100)⌋))

/-- The parsed cent value of a record, 0 when parsing fails (only used to state
sums over records that do parse). -/
def recordValue (r : HoldingRecord) : ℤ :=
  match amountToInt r.amountStr with
  | .ok a => a
  | .error _ => 0

/-- The contribution of one record to the aggregated total. -/
def trackedValue (cfg : Config) (r : HoldingRecord) : ℤ :=
  if symbolTracked cfg r.symbol then recordValue r else 0

/-- The contribution of one record to one symbol's aggregated amount. -/
def trackedValueAt (cfg : Config) (s : String) (r : HoldingRecord) : ℤ :=
  if symbolTracked cfg r.symbol ∧ r.symbol = s then recordValue r else 0

/-- A one-entry policy; rebalancing it against no holdings and no deposit has
total 0. -/
def cfgSingle : Config :=
  ⟨[⟨"VOO", 100, "Vanguard S and P 500 ETF"⟩]⟩

/-- A policy whose holdings below give a portfolio total of 3 cents, producing
fractional percentages. -/
def cfgThirds : Config :=
  ⟨[⟨"A", 30, ""⟩, ⟨"B", 70, ""⟩]⟩

/-- Holdings of 1 and 2 cents for `cfgThirds`. -/
def recsThirds : List HoldingRecord :=
  [⟨"A", "0.01"⟩, ⟨"B", "0.02"⟩]

/-- The two-fund policy of the spec's Scenario A. -/
def cfgTwoFund : Config :=
  ⟨[⟨"VOO", 80, ""⟩, ⟨"BND", 20, ""⟩]⟩

/-- Scenario A holdings: $8000.00 of VOO and $1000.00 of BND. -/
def recsTwoFund : List HoldingRecord :=
  [⟨"VOO", "8000.00"⟩, ⟨"BND", "1000.00"⟩]

/-- Entries whose percentages sum to `100 + 2⁻³⁰`, inside the 1e-9 validation
tolerance (both summands and their sum are exact float64 values). -/
def stocksSlack : List Stock :=
  [⟨"A", 50, ""⟩, ⟨"B", 50 + 1/1073741824, ""⟩]

/-- Entries in which the symbol VOO is claimed twice; the percentages sum to
exactly 100. -/
def stocksDup : List Stock :=
  [⟨"VOO", 50, "first claimant"⟩, ⟨"VOO", 50, "second claimant"⟩]

/-- Entries whose percentages sum to `100 + 2⁻²⁷`: the fractions sum to 1
within 1e-9 but the percentages do not sum to 100 within 1e-9 (all values
exact in float64). -/
def stocksFrac : List Stock :=
  [⟨"A", 50, ""⟩, ⟨"B", 50 + 1/134217728, ""⟩]

/-- Lists and states used by the concrete instances below. -/
def entriesThirds : List SymbolData :=
  [⟨1, 0, .finite (100/3), 30, .finite (100/3 - 30)⟩,
   ⟨2, 0, .finite (200/3), 70, .finite (200/3 - 70)⟩]

/-- The drift entries of the spec's Scenario A (amounts in cents). -/
def entriesA : List SymbolData :=
  [⟨800000, -80000, .finite (800/9), 80, .finite (800/9 - 80)⟩,
   ⟨100000, 80000, .finite (100/9), 20, .finite (100/9 - 20)⟩]

theorem goTruncToInt_intCast (k : ℤ) : goTruncToInt (.finite (k : ℚ)) = k := by
  simp only [goTruncToInt]
  split
  · exact Int.floor_intCast k
  · rw [show (-(k:ℚ)) = ((-k : ℤ) : ℚ) by push_cast; ring, Int.floor_intCast]
    ring

theorem goTruncToInt_round_finite (q : ℚ) :
    goTruncToInt (GoFloat.round (.finite q)) = roundHalfAway q := by
  simp only [GoFloat.round]
  exact goTruncToInt_intCast (roundHalfAway q)

theorem GoFloat.div_finite (a b : ℚ) :
    (GoFloat.finite a).div (GoFloat.finite b) =
      if b = 0 then (if a = 0 then .nan else if 0 < a then .posInf else .negInf)
      else .finite (a / b) := rfl

theorem GoFloat.mul_finite (a b : ℚ) :
    (GoFloat.finite a).mul (GoFloat.finite b) = .finite (a * b) := rfl

theorem GoFloat.sub_finite (a b : ℚ) :
    (GoFloat.finite a).sub (GoFloat.finite b) = .finite (a - b) := rfl

theorem GoFloat.neg_finite (a : ℚ) : (GoFloat.finite a).neg = .finite (-a) := rfl

/-- With a nonzero total every per-entry value of the rebalance loop is finite
and given by the exact formulas of main.go:146-156. -/
theorem mkSymbolData_of_ne_zero (total a : ℤ) (stock : Stock) (ht : (total : ℚ) ≠ 0) :
    mkSymbolData total a stock =
      { amount := a
        amountNeeded := roundHalfAway ((total : ℚ) * (-(((a : ℚ) / (total : ℚ)) * 100 - stock.targetPercentage) / 100))
        currentPercentage := .finite (((a : ℚ) / (total : ℚ)) * 100)
        targetPercentage := stock.targetPercentage
        drift := .finite (((a : ℚ) / (total : ℚ)) * 100 - stock.targetPercentage) } := by
  simp only [mkSymbolData, GoFloat.div_finite, if_neg ht, GoFloat.mul_finite, GoFloat.sub_finite,
    GoFloat.neg_finite, eq_false (show ¬((100:ℚ) = 0) by norm_num), if_false,
    goTruncToInt_round_finite]

theorem roundHalfAway_nonneg (q : ℚ) (h : 0 ≤ q) : 0 ≤ roundHalfAway q := by
  rw [roundHalfAway, if_pos h]
  rw [show (0:ℤ) = ⌊(0:ℚ)⌋ by norm_num]
  exact Int.floor_le_floor (by linarith)

theorem roundHalfAway_nonpos (q : ℚ) (h : q ≤ 0) : roundHalfAway q ≤ 0 := by
  rw [roundHalfAway]
  split
  · have hq : q = 0 := le_antisymm h (by assumption)
    subst hq; norm_num
  · have h2 : (0:ℤ) ≤ ⌊-q + 1/2⌋ := by
      rw [show (0:ℤ) = ⌊(0:ℚ)⌋ by norm_num]
      exact Int.floor_le_floor (by linarith)
    omega

/-- With a zero total and a zero amount every float of the entry is NaN. -/
theorem mkSymbolData_zero_zero (stock : Stock) :
    mkSymbolData 0 0 stock = ⟨0, 0, .nan, stock.targetPercentage, .nan⟩ := by
  simp [mkSymbolData, GoFloat.div_finite, GoFloat.mul, GoFloat.sub, GoFloat.neg, GoFloat.div,
    GoFloat.round, goTruncToInt]

/-- With a zero total the current percentage is NaN or an infinity, depending
on the sign of the amount. -/
theorem mkSymbolData_zero_total (a : ℤ) (stock : Stock) :
    (mkSymbolData 0 a stock).currentPercentage = GoFloat.nan ∨
    (mkSymbolData 0 a stock).currentPercentage = GoFloat.posInf ∨
    (mkSymbolData 0 a stock).currentPercentage = GoFloat.negInf := by
  simp only [mkSymbolData, GoFloat.div_finite]
  rw [if_pos (by norm_num : ((0:ℤ):ℚ) = 0)]
  rcases lt_trichotomy (a:ℚ) 0 with hneg | hzero | hpos
  · rw [if_neg (ne_of_lt hneg), if_neg (not_lt.mpr hneg.le)]
    right; right; rfl
  · rw [if_pos hzero]
    left; rfl
  · rw [if_neg (ne_of_gt hpos), if_pos hpos]
    right; left; rfl

theorem aggregateStep_untracked (cfg : Config) (st : AggState) (r : HoldingRecord)
    (h : symbolTracked cfg r.symbol = false) : aggregateStep cfg st r = .ok st := by
  simp [aggregateStep, h]

theorem aggregateLoop_cons_ok (cfg : Config) (st st' : AggState) (r : HoldingRecord)
    (l : List HoldingRecord) (h : aggregateStep cfg st r = .ok st') :
    aggregateLoop cfg st (r :: l) = aggregateLoop cfg st' l := by
  simp [aggregateLoop, h]

/-- A record whose symbol is untracked can be removed anywhere from the input
without changing the aggregation. -/
theorem aggregateLoop_drop_untracked (cfg : Config) (r : HoldingRecord) (l2 : List HoldingRecord)
    (h : symbolTracked cfg r.symbol = false) :
    ∀ (l1 : List HoldingRecord) (st : AggState),
      aggregateLoop cfg st (l1 ++ r :: l2) = aggregateLoop cfg st (l1 ++ l2)
  | [], st => by
      rw [List.nil_append, List.nil_append,
        aggregateLoop_cons_ok cfg st st r l2 (aggregateStep_untracked cfg st r h)]
  | a :: l1, st => by
      simp only [List.cons_append, aggregateLoop]
      cases aggregateStep cfg st a with
      | ok st' => exact aggregateLoop_drop_untracked cfg r l2 h l1 st'
      | error e => rfl

/-- When every record parses, the aggregation loop is the exact integer sum of
the tracked records' values, per symbol and in total. -/
theorem aggregateLoop_characterization (cfg : Config) :
    ∀ (l : List HoldingRecord) (st : AggState),
      (∀ r ∈ l, (amountToInt r.amountStr).isOk = true) →
      aggregateLoop cfg st l =
        .ok ⟨st.total + (l.map (trackedValue cfg)).sum,
             fun s => st.bySymbol s + (l.map (trackedValueAt cfg s)).sum⟩
  | [], st, _ => by
      simp only [aggregateLoop, List.map_nil, List.sum_nil, add_zero]
  | r :: l, st, hp => by
      have hr := hp r (by simp)
      have hl : ∀ x ∈ l, (amountToInt x.amountStr).isOk = true :=
        fun x hx => hp x (by simp [hx])
      simp only [List.map_cons, List.sum_cons]
      cases htr : symbolTracked cfg r.symbol with
      | false =>
          rw [aggregateLoop_cons_ok cfg st st r l (aggregateStep_untracked cfg st r htr),
            aggregateLoop_characterization cfg l st hl]
          simp [trackedValue, trackedValueAt, htr]
      | true =>
          cases hv : amountToInt r.amountStr with
          | error e => rw [hv] at hr; simp [Except.isOk, Except.toBool] at hr
          | ok a =>
              have hstep : aggregateStep cfg st r =
                  .ok ⟨st.total + a,
                       fun s => if s = r.symbol then st.bySymbol s + a else st.bySymbol s⟩ := by
                simp [aggregateStep, htr, hv]
              rw [aggregateLoop_cons_ok cfg st _ r l hstep,
                aggregateLoop_characterization cfg l _ hl]
              have hval : trackedValue cfg r = a := by simp [trackedValue, htr, recordValue, hv]
              congr 1
              refine AggState.mk.injEq _ _ _ _ ▸ ?_
              constructor
              · simp only [hval]; ring
              · funext s
                by_cases hs : s = r.symbol
                · simp [trackedValueAt, htr, hs, recordValue, hv]; ring
                · have hs2 : ¬(r.symbol = s) := fun h => hs h.symm
                  simp [trackedValueAt, htr, hs, hs2]

theorem rebalanceCalc_ok (cfg : Config) (records : List HoldingRecord) (d : ℤ) (st : AggState)
    (hag : aggregateRecords cfg records d = .ok st) :
    rebalanceCalc cfg records d =
      .ok (st.total, cfg.stocks.map (fun stock => mkSymbolData st.total (st.bySymbol stock.symbol) stock)) := by
  rw [rebalanceCalc, hag]

theorem totalPercentage_foldl :
    ∀ (l : List Stock) (acc : ℚ),
      l.foldl (fun a s => a + s.targetPercentage) acc = acc + (l.map Stock.targetPercentage).sum
  | [], acc => by simp
  | s :: l, acc => by
      simp only [List.foldl_cons, List.map_cons, List.sum_cons,
        totalPercentage_foldl l (acc + s.targetPercentage)]
      ring

theorem totalPercentage_eq_sum (l : List Stock) :
    totalPercentage l = (l.map Stock.targetPercentage).sum := by
  rw [totalPercentage, totalPercentage_foldl]
  ring

/-- Sum of floored shares is at most the exact fractional total. -/
theorem depositShares_sum_le (d : ℤ) :
    ∀ l : List Stock,
      (((l.map (fun s => ⌊(d:ℚ) * (s.targetPercentage / 100)⌋)).sum : ℤ) : ℚ) ≤
        (d:ℚ) * (l.map Stock.targetPercentage).sum / 100
  | [] => by simp
  | s :: l => by
      simp only [List.map_cons, List.sum_cons]
      have h1 := Int.floor_le ((d:ℚ) * (s.targetPercentage / 100))
      have h2 := depositShares_sum_le d l
      push_cast
      push_cast at h2
      linarith

/-- C10: `amountToInt` strips at most one leading `$`, removes every `.` before
the integer conversion (so `"100"` is 100 cents, `"1.2.3"` is 123 cents), and a
string containing a thousands separator fails to parse, as does a string with
two dollar signs (only one is stripped). -/
theorem amount_parsing_behavior :
    amountToInt "100" = .ok 100 ∧
    amountToInt "1.2.3" = .ok 123 ∧
    (amountToInt "$1,234.56").isOk = false ∧
    amountToInt "$5.00" = .ok 500 ∧
    (amountToInt "$$5.00").isOk = false :=
  ⟨rfl, rfl, rfl, rfl, rfl⟩

/-- C8: the positive round-trip of the spec's example holds
(`"1234.56"` parses to 123456 cents and formats back to `"$1,234.56"` with
separators and `"$1234.56"` without), but the round-trip fails for the
well-formed dollar string `"-0.05"`: it parses to −5 cents and formats back to
`"0$.-5"` instead of `"-$0.05"` — the zero left-padding of `formatAmount` is
applied to the string including its minus sign. -/
theorem money_roundtrip_negative_bug :
    amountToInt "1234.56" = .ok 123456 ∧
    formatAmount 123456 true = "$1,234.56" ∧
    formatAmount 123456 false = "$1234.56" ∧
    amountToInt "-0.05" = .ok (-5) ∧
    formatAmount (-5) false = "0$.-5" := by
  refine ⟨rfl, ?_, ?_, rfl, ?_⟩ <;> decide

/-- C9: `formatAmount` renders positive amounts as claimed (1 cent is
`"$0.01"`, and −1234 cents is `"-$12.34"` with the sign before the `$`), but
for negative amounts between −99 and −1 cents the output is malformed:
−45 cents renders as `"-$.45"` (no digit before the decimal point) and
−1 cent renders as `"0$.-1"` (the sign is not before the currency symbol) —
the zero left-padding interacts wrongly with the minus sign. -/
theorem format_negative_sign_bug :
    formatAmount 1 false = "$0.01" ∧
    formatAmount (-1234) false = "-$12.34" ∧
    formatAmount (-45) false = "-$.45" ∧
    formatAmount (-1) false = "0$.-1" := by
  refine ⟨?_, ?_, ?_, ?_⟩ <;> decide

/-- C4 counterexample: a raw entry sequence in which the symbol VOO is claimed
by two entries is accepted by validation (because the percentages sum to 100);
no `DuplicateSymbolError` exists in the code, refuting the claim that such a
sequence fails validation. -/
theorem duplicate_symbols_accepted :
    stocksDup.map Stock.symbol = ["VOO", "VOO"] ∧
    validateConfig stocksDup = .ok ⟨stocksDup⟩ := by
  constructor
  · rfl
  · simp [validateConfig, totalPercentage, stocksDup]
    norm_num

/-- C4 (amended): policy validation builds no symbol-to-owner map and performs
no duplicate-symbol check (the code also has no alias concept); any entry
sequence that passes the percentage-sum check is accepted, even when a symbol
is claimed by two entries. -/
theorem validation_ignores_duplicates (stocks : List Stock) (i j : ℕ)
    (hi : i < stocks.length) (hj : j < stocks.length) (hij : i ≠ j)
    (hsym : (stocks.get ⟨i, hi⟩).symbol = (stocks.get ⟨j, hj⟩).symbol)
    (hsum : |totalPercentage stocks - 100| ≤ 1 / 1000000000) :
    validateConfig stocks = .ok ⟨stocks⟩ := by
  rw [validateConfig, if_neg (not_lt.mpr hsum)]

/-- C4 witness: the duplicate-symbol sequence `stocksDup` satisfies every
hypothesis of `validation_ignores_duplicates` and is accepted. -/
theorem validation_ignores_duplicates_witness :
    validateConfig stocksDup = .ok ⟨stocksDup⟩ :=
  validation_ignores_duplicates stocksDup 0 1 (by simp [stocksDup]) (by simp [stocksDup])
    (by norm_num) rfl (by simp [totalPercentage, stocksDup]; norm_num)

/-- C5 counterexample: for `stocksFrac` the target fractions sum to
`1 + 2⁻²⁷/100`, within 1e-9 of 1, yet validation fails — the 1e-9 tolerance of
the code applies to the percentage sum (so to the fraction sum it is 1e-11),
refuting the claimed if-and-only-if at the fraction scale. -/
theorem fraction_tolerance_counterexample :
    |(stocksFrac.map specTargetFraction).sum - 1| ≤ 1 / 1000000000 ∧
    validateConfig stocksFrac = .error "target percentages do not add up to 100" := by
  constructor
  · simp [stocksFrac, specTargetFraction]
    rw [abs_of_pos] <;> norm_num
  · simp [validateConfig, totalPercentage, stocksFrac]
    norm_num
    rw [abs_of_pos] <;> norm_num

/-- C5 (amended): validation succeeds if and only if the sum of the target
percentages is within 1e-9 of 100 (equivalently, the sum of the target
fractions is within 1e-11 of 1.0); otherwise it fails with the allocation-sum
error and no policy is returned. -/
theorem validation_sum_tolerance (stocks : List Stock) :
    (validateConfig stocks = .ok ⟨stocks⟩ ↔ |totalPercentage stocks - 100| ≤ 1 / 1000000000) ∧
    (1 / 1000000000 < |totalPercentage stocks - 100| →
      validateConfig stocks = .error "target percentages do not add up to 100") := by
  constructor
  · constructor
    · intro h
      by_contra hc
      rw [validateConfig, if_pos (not_le.mp hc)] at h
      exact absurd h (by simp)
    · intro h
      rw [validateConfig, if_neg (not_lt.mpr h)]
  · intro h
    rw [validateConfig, if_pos h]

/-- C5 witness: `stocksFrac` is outside the percentage-scale tolerance, so
`validation_sum_tolerance` applies and validation fails with the sum error. -/
theorem validation_sum_tolerance_witness :
    1 / 1000000000 < |totalPercentage stocksFrac - 100| ∧
    validateConfig stocksFrac = .error "target percentages do not add up to 100" := by
  have hin : 1 / 1000000000 < |totalPercentage stocksFrac - 100| := by
    simp only [totalPercentage, stocksFrac, List.foldl]
    rw [abs_of_pos] <;> norm_num
  exact ⟨hin, (validation_sum_tolerance stocksFrac).2 hin⟩

/-- C6: a holdings record whose symbol does not resolve through the policy
(the code has no aliases, so resolution is exact membership among the config
symbols) contributes nothing: removing it from the input leaves the whole
rebalance result — per-symbol totals, portfolio total and every drift entry —
unchanged. -/
theorem untracked_symbol_dropped (cfg : Config) (l1 l2 : List HoldingRecord)
    (r : HoldingRecord) (d : ℤ) (h : symbolTracked cfg r.symbol = false) :
    rebalanceCalc cfg (l1 ++ r :: l2) d = rebalanceCalc cfg (l1 ++ l2) d := by
  rw [rebalanceCalc, rebalanceCalc, aggregateRecords, aggregateRecords,
    aggregateLoop_drop_untracked cfg r l2 h l1]

/-- C6 witness: an AAPL record is dropped by the two-fund policy. -/
theorem untracked_symbol_dropped_witness :
    symbolTracked cfgTwoFund "AAPL" = false ∧
    rebalanceCalc cfgTwoFund [⟨"VOO", "1.00"⟩, ⟨"AAPL", "1.00"⟩] 0 =
      rebalanceCalc cfgTwoFund [⟨"VOO", "1.00"⟩] 0 :=
  ⟨rfl, untracked_symbol_dropped cfgTwoFund [⟨"VOO", "1.00"⟩] [] ⟨"AAPL", "1.00"⟩ 0 rfl⟩

theorem rebalanceCalc_cfgSingle :
    rebalanceCalc cfgSingle [] 0 = .ok (0, [⟨0, 0, .nan, 100, .nan⟩]) := by
  simp only [rebalanceCalc, aggregateRecords, aggregateLoop, cfgSingle, List.map]
  rw [show (mkSymbolData 0 0 ⟨"VOO", 100, "Vanguard S and P 500 ETF"⟩ : SymbolData)
      = ⟨0, 0, .nan, 100, .nan⟩ from mkSymbolData_zero_zero _]

/-- C1 counterexample: with the one-entry policy `cfgSingle`, no holdings and
no pending deposit the total is 0 ≤ 0, yet `rebalance` does not fail: it
produces a report, and the report's only entry has `currentPercentage = NaN`
(0/0 in float64).  This refutes both halves of the claim: no `ZeroTotalError`
exists and a NaN report is returned. -/
theorem rebalance_zero_total_counterexample :
    rebalanceCalc cfgSingle [] 0 = .ok (0, [⟨0, 0, .nan, 100, .nan⟩]) ∧
    (rebalanceCalc cfgSingle [] 0).isOk = true :=
  ⟨rebalanceCalc_cfgSingle, by rw [rebalanceCalc_cfgSingle]; rfl⟩

/-- C1 (amended): when the portfolio total is 0 the engine does not fail — it
returns a report — and every drift entry's current percentage is NaN (when the
entry's amount is 0) or ±infinity (when it is nonzero); the code has no
`ZeroTotalError`. -/
theorem rebalance_zero_total_report (cfg : Config) (records : List HoldingRecord) (d : ℤ)
    (entries : List SymbolData) (h : rebalanceCalc cfg records d = .ok (0, entries)) :
    ∀ e ∈ entries,
      e.currentPercentage = GoFloat.nan ∨ e.currentPercentage = GoFloat.posInf ∨
        e.currentPercentage = GoFloat.negInf := by
  cases hag : aggregateRecords cfg records d with
  | error e0 => rw [rebalanceCalc, hag] at h; exact Except.noConfusion h
  | ok st =>
      rw [rebalanceCalc, hag] at h
      injection h with h'
      rw [Prod.mk.injEq] at h'
      obtain ⟨h0, hent⟩ := h'
      subst hent
      intro e he
      rcases List.mem_map.mp he with ⟨stock, _, rfl⟩
      rw [h0]
      exact mkSymbolData_zero_total _ stock

/-- C1 witness: the zero-total run of `cfgSingle` instantiates
`rebalance_zero_total_report` at its single report entry. -/
theorem rebalance_zero_total_report_witness :
    (⟨0, 0, .nan, 100, .nan⟩ : SymbolData).currentPercentage = GoFloat.nan ∨
    (⟨0, 0, .nan, 100, .nan⟩ : SymbolData).currentPercentage = GoFloat.posInf ∨
    (⟨0, 0, .nan, 100, .nan⟩ : SymbolData).currentPercentage = GoFloat.negInf :=
  rebalance_zero_total_report cfgSingle [] 0 _ rebalanceCalc_cfgSingle
    ⟨0, 0, .nan, 100, .nan⟩ (by simp)

theorem mkSymbolData_fields (total a : ℤ) (stock : Stock) (ht : (total : ℚ) ≠ 0) :
    (mkSymbolData total a stock).amount = a ∧
    (mkSymbolData total a stock).targetPercentage = stock.targetPercentage ∧
    (mkSymbolData total a stock).currentPercentage = .finite ((a : ℚ) / (total : ℚ) * 100) ∧
    (mkSymbolData total a stock).drift =
      .finite ((a : ℚ) / (total : ℚ) * 100 - stock.targetPercentage) ∧
    (mkSymbolData total a stock).amountNeeded =
      roundHalfAway ((total : ℚ) * (-((a : ℚ) / (total : ℚ) * 100 - stock.targetPercentage) / 100)) := by
  rw [mkSymbolData_of_ne_zero total a stock ht]
  exact ⟨rfl, rfl, rfl, rfl, rfl⟩

theorem rebalanceCalc_cfgThirds :
    rebalanceCalc cfgThirds recsThirds 0 = .ok (3, entriesThirds) := by
  have h1 : amountToInt "0.01" = .ok 1 := rfl
  have h2 : amountToInt "0.02" = .ok 2 := rfl
  have t1 : symbolTracked cfgThirds "A" = true := rfl
  have t2 : symbolTracked cfgThirds "B" = true := rfl
  have eAB : ("A" : String) ≠ "B" := by decide
  have eBA : ("B" : String) ≠ "A" := by decide
  simp only [rebalanceCalc, aggregateRecords, recsThirds, aggregateLoop, aggregateStep, t1, t2,
    h1, h2, Bool.not_true, Bool.false_eq_true, if_false]
  norm_num [cfgThirds]
  rw [mkSymbolData_of_ne_zero _ _ _ (by norm_num), mkSymbolData_of_ne_zero _ _ _ (by norm_num)]
  simp [eAB, eBA, roundHalfAway, entriesThirds]
  norm_num

/-- C2 counterexample: in the run of `cfgThirds` against 1 and 2 cents, entry A
is overweight (current percentage 100/3 > target 30) and entry B is underweight
(200/3 < 70), yet both reported `amountNeeded` values are 0 — neither negative
for the overweight entry nor positive for the underweight one, refuting the
claimed strict signs. -/
theorem rebalance_sign_counterexample :
    rebalanceCalc cfgThirds recsThirds 0 = .ok (3, entriesThirds) ∧
    (30 : ℚ) < 100/3 ∧ (200/3 : ℚ) < 70 ∧
    entriesThirds.map SymbolData.amountNeeded = [0, 0] :=
  ⟨rebalanceCalc_cfgThirds, by norm_num, by norm_num, rfl⟩

/-- C2 (amended): with a positive total, every drift entry of the report
satisfies the exact formulas of the claim — `currentPct = 100·amount/total`,
`drift = currentPct − targetPct`, and `amountNeeded` is
`round(total · (−drift/100))` with round-half-away-from-zero applied exactly
once at the integer-cents boundary — but the sign guarantee is only weak:
`amountNeeded` is non-negative when the entry is underweight and non-positive
when overweight (it is 0 whenever `|total·drift/100|` is below half a cent). -/
theorem rebalance_amount_needed (cfg : Config) (records : List HoldingRecord) (d total : ℤ)
    (entries : List SymbolData) (h : rebalanceCalc cfg records d = .ok (total, entries))
    (ht : 0 < total) :
    ∀ e ∈ entries,
      e.currentPercentage = .finite ((e.amount : ℚ) / (total : ℚ) * 100) ∧
      e.drift = .finite ((e.amount : ℚ) / (total : ℚ) * 100 - e.targetPercentage) ∧
      e.amountNeeded =
        roundHalfAway ((total : ℚ) *
          (-((e.amount : ℚ) / (total : ℚ) * 100 - e.targetPercentage) / 100)) ∧
      ((e.amount : ℚ) / (total : ℚ) * 100 < e.targetPercentage → 0 ≤ e.amountNeeded) ∧
      (e.targetPercentage < (e.amount : ℚ) / (total : ℚ) * 100 → e.amountNeeded ≤ 0) := by
  cases hag : aggregateRecords cfg records d with
  | error e0 => rw [rebalanceCalc, hag] at h; exact Except.noConfusion h
  | ok st =>
      rw [rebalanceCalc, hag] at h
      injection h with h'
      rw [Prod.mk.injEq] at h'
      obtain ⟨h0, hent⟩ := h'
      subst hent
      intro e he
      rcases List.mem_map.mp he with ⟨stock, _, rfl⟩
      rw [h0]
      have htp : (0:ℚ) < ((total:ℤ):ℚ) := by exact_mod_cast ht
      obtain ⟨f1, f2, f3, f4, f5⟩ :=
        mkSymbolData_fields total (st.bySymbol stock.symbol) stock (ne_of_gt htp)
      rw [f1, f2, f3, f4, f5]
      refine ⟨rfl, rfl, rfl, ?_, ?_⟩
      · intro hlt
        apply roundHalfAway_nonneg
        apply mul_nonneg htp.le
        apply div_nonneg _ (by norm_num : (0:ℚ) ≤ 100)
        linarith
      · intro hgt
        apply roundHalfAway_nonpos
        have hx : -((st.bySymbol stock.symbol : ℚ) / (total : ℚ) * 100 - stock.targetPercentage) / 100 ≤ 0 :=
          div_nonpos_of_nonpos_of_nonneg (by linarith) (by norm_num)
        have h2 := mul_le_mul_of_nonneg_left hx htp.le
        simpa using h2

theorem rebalanceCalc_cfgTwoFund :
    rebalanceCalc cfgTwoFund recsTwoFund 0 = .ok (900000, entriesA) := by
  have h1 : amountToInt "8000.00" = .ok 800000 := rfl
  have h2 : amountToInt "1000.00" = .ok 100000 := rfl
  have t1 : symbolTracked cfgTwoFund "VOO" = true := rfl
  have t2 : symbolTracked cfgTwoFund "BND" = true := rfl
  have eVB : ("VOO" : String) ≠ "BND" := by decide
  have eBV : ("BND" : String) ≠ "VOO" := by decide
  simp only [rebalanceCalc, aggregateRecords, recsTwoFund, aggregateLoop, aggregateStep, t1, t2,
    h1, h2, Bool.not_true, Bool.false_eq_true, if_false]
  norm_num [cfgTwoFund]
  rw [mkSymbolData_of_ne_zero _ _ _ (by norm_num), mkSymbolData_of_ne_zero _ _ _ (by norm_num)]
  simp [eVB, eBV, roundHalfAway, entriesA]
  norm_num

/-- C2 witness: the spec's Scenario A run (total $9000.00) instantiates
`rebalance_amount_needed` at the VOO entry: its percentage is 800/9, its
amountNeeded is the claimed rounding, and being overweight (80 < 800/9) its
amountNeeded −80000 is non-positive. -/
theorem rebalance_amount_needed_witness :
    (0:ℤ) < 900000 ∧
    (⟨800000, -80000, .finite (800/9), 80, .finite (800/9 - 80)⟩ : SymbolData).currentPercentage =
      .finite (((800000 : ℤ) : ℚ) / ((900000 : ℤ) : ℚ) * 100) ∧
    (⟨800000, -80000, .finite (800/9), 80, .finite (800/9 - 80)⟩ : SymbolData).amountNeeded =
      roundHalfAway (((900000 : ℤ) : ℚ) *
        (-(((800000 : ℤ) : ℚ) / ((900000 : ℤ) : ℚ) * 100 - 80) / 100)) ∧
    (80 : ℚ) < ((800000 : ℤ) : ℚ) / ((900000 : ℤ) : ℚ) * 100 ∧
    (⟨800000, -80000, .finite (800/9), 80, .finite (800/9 - 80)⟩ : SymbolData).amountNeeded ≤ 0 := by
  have h := rebalance_amount_needed cfgTwoFund recsTwoFund 0 900000 entriesA
    rebalanceCalc_cfgTwoFund (by norm_num)
    ⟨800000, -80000, .finite (800/9), 80, .finite (800/9 - 80)⟩ (by simp [entriesA])
  obtain ⟨hc, _, hn, _, hs⟩ := h
  have hover : (80 : ℚ) < ((800000 : ℤ) : ℚ) / ((900000 : ℤ) : ℚ) * 100 := by norm_num
  exact ⟨by norm_num, hc, hn, hover, hs hover⟩

/-- C3 counterexample: `stocksSlack` passes validation (its percentage sum is
`100 + 2⁻³⁰`, within the 1e-9 tolerance), and for the non-negative deposit
107374182400 cents the floored shares sum to 107374182401 — one cent more than
the deposit — refuting the claim that the sum of shares never exceeds the
deposit for every valid policy. -/
theorem deposit_allocation_counterexample :
    validateConfig stocksSlack = .ok ⟨stocksSlack⟩ ∧
    (0:ℤ) ≤ 107374182400 ∧
    107374182400 < ((depositShares ⟨stocksSlack⟩ 107374182400).map Prod.snd).sum := by
  refine ⟨?_, by norm_num, ?_⟩
  · rw [validateConfig, if_neg]
    rw [not_lt]
    simp only [totalPercentage, stocksSlack, List.foldl]
    rw [abs_of_pos] <;> norm_num
  · simp only [depositShares, stocksSlack, List.map_cons, List.map_nil, List.sum_cons,
      List.sum_nil]
    norm_num

/-- C3 (amended): every share is `floor(depositAmount · targetFraction)` and
`sum(shares) + remainder = depositAmount` holds exactly with
`remainder = depositAmount − sum(shares)`; the bound
`sum(shares) ≤ depositAmount` holds for every non-negative deposit when the
target percentages sum to at most 100 exactly (within-tolerance overshoot of
the percentage sum can make the shares exceed the deposit). -/
theorem deposit_allocation_bounds (cfg : Config) (d : ℤ) (hd : 0 ≤ d)
    (hsum : totalPercentage cfg.stocks ≤ 100) :
    (∀ pr ∈ depositShares cfg d, ∃ stock ∈ cfg.stocks,
        pr = (stock.symbol, ⌊(d : ℚ) * specTargetFraction stock⌋)) ∧
    ((depositShares cfg d).map Prod.snd).sum ≤ d ∧
    ((depositShares cfg d).map Prod.snd).sum + (d - ((depositShares cfg d).map Prod.snd).sum) = d := by
  refine ⟨?_, ?_, by ring⟩
  · intro pr hpr
    rcases List.mem_map.mp hpr with ⟨stock, hmem, heq⟩
    exact ⟨stock, hmem, by rw [← heq, specTargetFraction]⟩
  · have hmap : (depositShares cfg d).map Prod.snd =
        cfg.stocks.map (fun s => ⌊(d : ℚ) * (s.targetPercentage / 100)⌋) := by
      rw [depositShares, List.map_map]
      rfl
    have hq := depositShares_sum_le d cfg.stocks
    have hS : (cfg.stocks.map Stock.targetPercentage).sum ≤ 100 := by
      rw [← totalPercentage_eq_sum]
      exact hsum
    have hd' : (0:ℚ) ≤ (d:ℚ) := by exact_mod_cast hd
    have hfrac : (d:ℚ) * (cfg.stocks.map Stock.targetPercentage).sum / 100 ≤ (d:ℚ) := by
      have := mul_le_mul_of_nonneg_left hS hd'
      linarith
    rw [hmap]
    exact_mod_cast le_trans hq hfrac

/-- C3 witness: the two-fund policy (percentages summing to exactly 100) with a
$100.00 deposit instantiates `deposit_allocation_bounds`. -/
theorem deposit_allocation_bounds_witness :
    (0:ℤ) ≤ 10000 ∧ totalPercentage cfgTwoFund.stocks ≤ 100 ∧
    ((depositShares cfgTwoFund 10000).map Prod.snd).sum ≤ 10000 := by
  have hsum : totalPercentage cfgTwoFund.stocks ≤ 100 := by
    simp [totalPercentage, cfgTwoFund]
    norm_num
  exact ⟨by norm_num, hsum,
    (deposit_allocation_bounds cfgTwoFund 10000 (by norm_num) hsum).2.1⟩

/-- C7: aggregation is an exact integer sum per canonical symbol: when every
record parses, any permutation of the input yields the same aggregated state
(same per-symbol map and same total), and aggregating the same record twice
equals aggregating one record with the same symbol and double the amount once. -/
theorem aggregation_perm_invariant
    (cfg : Config) (l l' : List HoldingRecord) (r r2 : HoldingRecord) (d a : ℤ)
    (hperm : l.Perm l') (hl : ∀ x ∈ l, (amountToInt x.amountStr).isOk = true)
    (hr : amountToInt r.amountStr = .ok a) (hr2 : amountToInt r2.amountStr = .ok (2 * a))
    (hsym : r2.symbol = r.symbol) :
    aggregateRecords cfg l d = aggregateRecords cfg l' d ∧
    aggregateRecords cfg (r :: r :: l) d = aggregateRecords cfg (r2 :: l) d := by
  have hl' : ∀ x ∈ l', (amountToInt x.amountStr).isOk = true :=
    fun x hx => hl x (hperm.mem_iff.mpr hx)
  have hrOk : (amountToInt r.amountStr).isOk = true := by rw [hr]; rfl
  have hr2Ok : (amountToInt r2.amountStr).isOk = true := by rw [hr2]; rfl
  have hvr : recordValue r = a := by rw [recordValue, hr]
  have hvr2 : recordValue r2 = 2 * a := by rw [recordValue, hr2]
  constructor
  · rw [aggregateRecords, aggregateRecords,
      aggregateLoop_characterization cfg l _ hl, aggregateLoop_characterization cfg l' _ hl']
    congr 1
    refine AggState.mk.injEq _ _ _ _ ▸ ⟨?_, funext fun s => ?_⟩
    · rw [(hperm.map (trackedValue cfg)).sum_eq]
    · rw [(hperm.map (trackedValueAt cfg s)).sum_eq]
  · have hll : ∀ x ∈ r :: r :: l, (amountToInt x.amountStr).isOk = true := by
      intro x hx
      rcases List.mem_cons.mp hx with rfl | hx
      · exact hrOk
      rcases List.mem_cons.mp hx with rfl | hx
      · exact hrOk
      exact hl x hx
    have hl2 : ∀ x ∈ r2 :: l, (amountToInt x.amountStr).isOk = true := by
      intro x hx
      rcases List.mem_cons.mp hx with rfl | hx
      · exact hr2Ok
      exact hl x hx
    rw [aggregateRecords, aggregateRecords,
      aggregateLoop_characterization cfg _ _ hll, aggregateLoop_characterization cfg _ _ hl2]
    simp only [List.map_cons, List.sum_cons]
    congr 1
    refine AggState.mk.injEq _ _ _ _ ▸ ⟨?_, funext fun s => ?_⟩
    · simp only [trackedValue, hsym, hvr, hvr2]
      cases htr : symbolTracked cfg r.symbol <;> simp [htr] <;> ring
    · simp only [trackedValueAt, hsym, hvr, hvr2]
      by_cases htr : symbolTracked cfg r.symbol = true
      · by_cases hs : r.symbol = s
        · subst hs
          simp [htr] <;> ring
        · simp [htr, hs]
      · have htr' : symbolTracked cfg r.symbol = false := by
          cases h2 : symbolTracked cfg r.symbol
          · rfl
          · exact absurd h2 htr
        simp [htr']

/-- C7 witness: a concrete permutation of two parsed records and a concrete
doubling (VOO $1.00 twice versus VOO $2.00 once) instantiate
`aggregation_perm_invariant`. -/
theorem aggregation_perm_invariant_witness :
    ([⟨"VOO", "1.00"⟩, ⟨"BND", "2.00"⟩] : List HoldingRecord).Perm
      [⟨"BND", "2.00"⟩, ⟨"VOO", "1.00"⟩] ∧
    aggregateRecords cfgTwoFund [⟨"VOO", "1.00"⟩, ⟨"BND", "2.00"⟩] 0 =
      aggregateRecords cfgTwoFund [⟨"BND", "2.00"⟩, ⟨"VOO", "1.00"⟩] 0 ∧
    aggregateRecords cfgTwoFund
        (⟨"VOO", "1.00"⟩ :: ⟨"VOO", "1.00"⟩ :: [⟨"VOO", "1.00"⟩, ⟨"BND", "2.00"⟩]) 0 =
      aggregateRecords cfgTwoFund (⟨"VOO", "2.00"⟩ :: [⟨"VOO", "1.00"⟩, ⟨"BND", "2.00"⟩]) 0 := by
  have hperm : ([⟨"VOO", "1.00"⟩, ⟨"BND", "2.00"⟩] : List HoldingRecord).Perm
      [⟨"BND", "2.00"⟩, ⟨"VOO", "1.00"⟩] := List.Perm.swap _ _ _
  have h := aggregation_perm_invariant cfgTwoFund
    [⟨"VOO", "1.00"⟩, ⟨"BND", "2.00"⟩] [⟨"BND", "2.00"⟩, ⟨"VOO", "1.00"⟩]
    ⟨"VOO", "1.00"⟩ ⟨"VOO", "2.00"⟩ 0 100 hperm
    (by intro x hx; rcases List.mem_cons.mp hx with rfl | hx; · rfl
        rcases List.mem_cons.mp hx with rfl | hx; · rfl
        exact absurd hx (List.not_mem_nil x))
    rfl rfl rfl
  exact ⟨hperm, h.1, h.2⟩
